import Mathlib

/-!
# Bucket on-disk codec: shallow embedding and verification

Shallow embedding of `bucket.go` from the nutsdb bucket codec: the
`BucketMeta` fixed header, the `Bucket` record, little-endian
encoding/decoding, and the CRC-32 (IEEE polynomial) checksum from Go's
`hash/crc32` package.  Byte buffers are `List Nat` whose elements are byte
values; machine-integer conversions (`uint16(..)`, `uint32(..)`) are `% 2 ^ w`.
Functions that can hit an out-of-bounds slice panic in Go return `Option`,
with `none` marking the panic.
-/

namespace NutsDB

/-- Go constant `IdSize = 8`: byte width of `Bucket.Id` on disk. -/
def IdSize : Nat := 8

/-- Go constant `DsSize = 2`: byte width of `Bucket.Ds` on disk. -/
def DsSize : Nat := 2

/-- Go `error` values that the bucket codec defines.  `bucketCrcInvalid` embeds
`ErrBucketCrcInvalid = errors.New("bucket crc invalid")`. -/
inductive GoError where
  | bucketCrcInvalid
  deriving DecidableEq, Repr

/-- Modelled from the spec: `GetDiskSizeFromSingleObject` is not part of the
source fragment (only its call from `init` is).  The spec states the header
width is computed once at process start from a zero-valued `BucketMeta` and
equals the exact byte width of its three fields (`Crc` 4 + `Op` 2 + `Size` 4). -/
def GetDiskSizeFromSingleObject_BucketMeta : Nat := 4 + 2 + 4

/-- Go package variable `BucketMetaSize`, set in `init` to
`GetDiskSizeFromSingleObject(BucketMeta{})`. -/
def BucketMetaSize : Nat := GetDiskSizeFromSingleObject_BucketMeta

/-- Go struct `BucketMeta`: `Crc uint32`, `Op BucketOperation` (a `uint16`),
`Size uint32`. -/
structure BucketMeta where
  Crc : Nat
  Op : Nat
  Size : Nat
  deriving DecidableEq, Repr

/-- Go struct `Bucket`.  In Go, `Meta` is a pointer `*BucketMeta`; the model
represents buckets whose `Meta` is non-nil (a nil `Meta` makes `Encode` panic
and is outside every property considered here).  `Name` is the byte sequence
of the Go string. -/
structure Bucket where
  Meta : BucketMeta
  Id : Nat
  Ds : Nat
  Name : List Nat
  deriving DecidableEq, Repr

/-! ## Little-endian byte order (`encoding/binary`, little-endian) -/

/-- `leBytes k v`: the `k` little-endian bytes Go's
`binary.LittleEndian.PutUintNN` writes for `v` (least significant byte
first; each byte is a truncating `byte(v >> 8i)` conversion). -/
def leBytes : Nat → Nat → List Nat
  | 0, _ => []
  | k + 1, v => v % 256 :: leBytes k (v / 256)

/-- Recompose a little-endian byte list into a number
(`b[0] | b[1]<<8 | ...`). -/
def leNat (bs : List Nat) : Nat := bs.foldr (fun b acc => b + 256 * acc) 0

/-- Go `binary.LittleEndian.Uint16`: reads exactly 2 bytes from the front. -/
def LEUint16 (b : List Nat) : Nat := leNat (b.take 2)

/-- Go `binary.LittleEndian.Uint32`: reads exactly 4 bytes from the front. -/
def LEUint32 (b : List Nat) : Nat := leNat (b.take 4)

/-- Go `binary.LittleEndian.Uint64`: reads exactly 8 bytes from the front. -/
def LEUint64 (b : List Nat) : Nat := leNat (b.take 8)

/-- Go slice expression `l[i:j]` (used only at call sites where `i ≤ j`). -/
def goSlice (l : List Nat) (i j : Nat) : List Nat := (l.drop i).take (j - i)

/-- Overwrite `bs.length` bytes of `buf` starting at offset `off`
(`copy(buf[off:off+len(bs)], bs)` / the `PutUintNN` byte stores). -/
def putBytes (buf : List Nat) (off : Nat) (bs : List Nat) : List Nat :=
  buf.take off ++ bs ++ buf.drop (off + bs.length)

/-! ## CRC-32, IEEE polynomial (`hash/crc32`)

Go's table-driven computation is equivalent to the bit-at-a-time reflected
algorithm with polynomial `0xEDB88320`, embedded here directly. -/

/-- One bit step of reflected CRC-32/IEEE. -/
def crc32Step (crc : Nat) : Nat :=
  if crc % 2 = 1 then crc / 2 ^^^ 0xEDB88320 else crc / 2

/-- Iterate `crc32Step` `k` times. -/
def crc32Rounds : Nat → Nat → Nat
  | 0, crc => crc
  | k + 1, crc => crc32Rounds k (crc32Step crc)

/-- Absorb one input byte: xor it in, then run 8 bit steps. -/
def crc32Byte (crc b : Nat) : Nat := crc32Rounds 8 (crc ^^^ b)

/-- Absorb a byte list into a running (pre-inverted) CRC state. -/
def crc32UpdateCore (crc : Nat) (data : List Nat) : Nat :=
  data.foldl crc32Byte crc

/-- `^uint32(0)`: the inversion mask applied before and after absorbing. -/
def mask32 : Nat := 0xFFFFFFFF

/-- Go `crc32.Update(crc, crc32.IEEETable, data)`. -/
def crc32Update (crc : Nat) (data : List Nat) : Nat :=
  crc32UpdateCore (crc ^^^ mask32) data ^^^ mask32

/-- Go `crc32.ChecksumIEEE(data) = crc32.Update(0, crc32.IEEETable, data)`. -/
def ChecksumIEEE (data : List Nat) : Nat := crc32Update 0 data

/-! ## The codec (`bucket.go`) -/

/-- Go `func (meta *BucketMeta) Decode(bytes []byte)`.
The method first evaluates `bytes[BucketMetaSize-1]` (panic when the slice is
shorter than `BucketMetaSize`), then reads
`Crc = Uint32(bytes[:4])`, `Op = Uint16(bytes[4:6])`,
`Size = Uint32(bytes[6:10])` and assigns all three receiver fields.
`none` is the panic; `some` is the updated receiver. -/
def BucketMeta.Decode (_meta : BucketMeta) (bytes : List Nat) :
    Option BucketMeta :=
  if BucketMetaSize ≤ bytes.length then
    some { Crc := LEUint32 (goSlice bytes 0 4)
         , Op := LEUint16 (goSlice bytes 4 6)
         , Size := LEUint32 (goSlice bytes 6 10) }
  else none

/-- Go `func (b *Bucket) GetPayloadSize() int = IdSize + DsSize + len(b.Name)`. -/
def Bucket.GetPayloadSize (b : Bucket) : Nat :=
  IdSize + DsSize + b.Name.length

/-- Go `func (b *Bucket) GetEntrySize() int = int(BucketMetaSize) + b.GetPayloadSize()`. -/
def Bucket.GetEntrySize (b : Bucket) : Nat :=
  BucketMetaSize + b.GetPayloadSize

/-- Go `func (b *Bucket) Encode() []byte`, step for step:
allocate `make([]byte, entrySize)`, set `b.Meta.Size = uint32(payload size)`,
put `Op` at `[4:6)` and `Size` at `[6:10)`, put `Id`, `Ds`, `Name` after the
header, checksum `buf[4:]`, store it in `b.Meta.Crc` and at `[0:4)`.
Returns the buffer together with the mutated receiver. -/
def Bucket.Encode (b : Bucket) : List Nat × Bucket :=
  let entrySize := b.GetEntrySize
  let buf0 := List.replicate entrySize 0
  let size := b.GetPayloadSize % 2 ^ 32
  let buf1 := putBytes buf0 4 (leBytes 2 b.Meta.Op)
  let buf2 := putBytes buf1 6 (leBytes 4 size)
  let buf3 := putBytes buf2 BucketMetaSize (leBytes 8 b.Id)
  let buf4 := putBytes buf3 (BucketMetaSize + IdSize) (leBytes 2 b.Ds)
  let buf5 := putBytes buf4 (BucketMetaSize + IdSize + DsSize) b.Name
  let c32 := ChecksumIEEE (buf5.drop 4)
  let buf6 := putBytes buf5 0 (leBytes 4 c32)
  (buf6, { b with Meta := { Crc := c32, Op := b.Meta.Op, Size := size } })

/-- Go `func (b *Bucket) Decode(bytes []byte) error`.
Reads `Id = Uint64(bytes[:IdSize])`, `Ds = Uint16(bytes[IdSize:IdSize+DsSize])`,
`Name = bytes[IdSize+DsSize:]`, assigns them to the receiver and returns `nil`.
The Go slice expressions panic exactly when `len(bytes) < IdSize + DsSize`;
the outer `none` is that panic, the inner `Option GoError` is the returned Go
error (`none` = `nil`). -/
def Bucket.Decode (b : Bucket) (bytes : List Nat) :
    Option (Bucket × Option GoError) :=
  if IdSize + DsSize ≤ bytes.length then
    some ({ b with
              Id := LEUint64 (goSlice bytes 0 IdSize)
            , Ds := LEUint16 (goSlice bytes IdSize (IdSize + DsSize))
            , Name := bytes.drop (IdSize + DsSize) }, none)
  else none

/-- Go `func (b *Bucket) GetCRC(headerBuf []byte, dataBuf []byte) uint32`:
`crc32.Update(crc32.ChecksumIEEE(headerBuf[4:]), crc32.IEEETable, dataBuf)`.
`headerBuf[4:]` panics when `len(headerBuf) < 4`; `none` is that panic. -/
def Bucket.GetCRC (_b : Bucket) (headerBuf dataBuf : List Nat) : Option Nat :=
  if 4 ≤ headerBuf.length then
    some (crc32Update (ChecksumIEEE (headerBuf.drop 4)) dataBuf)
  else none

/-! ## The shape of an encoded record

`Encode` produces `leBytes 4 crc ++ leBytes 2 op ++ leBytes 4 size ++
leBytes 8 id ++ leBytes 2 ds ++ name`; the next definitions name the pieces
and `encode_eq` proves it. -/

/-- The value `Encode` stores in `Meta.Size`: the payload size after Go's
truncating `uint32` conversion. -/
def encSize (b : Bucket) : Nat := b.GetPayloadSize % 2 ^ 32

/-- Bytes `[4:]` of an encoded record: everything except the Crc field. -/
def encPayloadTail (b : Bucket) : List Nat :=
  leBytes 2 b.Meta.Op ++ (leBytes 4 (encSize b) ++ (leBytes 8 b.Id ++ (leBytes 2 b.Ds ++ b.Name)))

/-- The checksum `Encode` computes: CRC-32/IEEE over bytes `[4:]`. -/
def encCrc (b : Bucket) : Nat := ChecksumIEEE (encPayloadTail b)

/-- Bytes `[0:BucketMetaSize)` of an encoded record: the fixed header. -/
def encHeader (b : Bucket) : List Nat :=
  leBytes 4 (encCrc b) ++ (leBytes 2 b.Meta.Op ++ leBytes 4 (encSize b))

/-- Bytes `[BucketMetaSize:]` of an encoded record: the payload. -/
def encPayload (b : Bucket) : List Nat :=
  leBytes 8 b.Id ++ (leBytes 2 b.Ds ++ b.Name)

/-! ## Little-endian lemmas -/

theorem length_leBytes (k : Nat) : ∀ v : Nat, (leBytes k v).length = k := by
  induction k with
  | zero => intro v; rfl
  | succ k ih => intro v; simp [leBytes, ih]

theorem leBytes_lt (k : Nat) : ∀ v : Nat, ∀ x ∈ leBytes k v, x < 256 := by
  induction k with
  | zero => intro v x hx; simp [leBytes] at hx
  | succ k ih =>
    intro v x hx
    simp only [leBytes, List.mem_cons] at hx
    rcases hx with h | h
    · subst h; omega
    · exact ih _ x h

theorem leBytes_lt' (k v : Nat) : ∀ x ∈ leBytes k v, x < 256 := leBytes_lt k v

theorem leNat_nil : leNat [] = 0 := rfl

theorem leNat_cons (b : Nat) (bs : List Nat) :
    leNat (b :: bs) = b + 256 * leNat bs := rfl

theorem leNat_leBytes (k : Nat) : ∀ v : Nat, leNat (leBytes k v) = v % 256 ^ k := by
  induction k with
  | zero => intro v; simp [leBytes, leNat, Nat.mod_one]
  | succ k ih =>
    intro v
    rw [leBytes, leNat_cons, ih (v / 256), pow_succ', Nat.mod_mul]

/-! ## CRC-32 lemmas -/

theorem xor_xor_cancel (x m : Nat) : x ^^^ m ^^^ m = x := by
  rw [Nat.xor_assoc, Nat.xor_self, Nat.xor_zero]

theorem crc32Update_append (c : Nat) (a d : List Nat) :
    crc32Update (crc32Update c a) d = crc32Update c (a ++ d) := by
  simp only [crc32Update, crc32UpdateCore, xor_xor_cancel, List.foldl_append]

theorem ChecksumIEEE_append (a d : List Nat) :
    crc32Update (ChecksumIEEE a) d = ChecksumIEEE (a ++ d) := by
  rw [ChecksumIEEE, crc32Update_append, ChecksumIEEE]

theorem crc32Step_lt {c : Nat} (h : c < 2 ^ 32) : crc32Step c < 2 ^ 32 := by
  have hdiv : c / 2 < 2 ^ 32 := lt_of_le_of_lt (Nat.div_le_self _ _) h
  unfold crc32Step
  split
  · exact Nat.xor_lt_two_pow hdiv (by norm_num)
  · exact hdiv

theorem crc32Rounds_lt (k : Nat) : ∀ {c : Nat}, c < 2 ^ 32 → crc32Rounds k c < 2 ^ 32 := by
  induction k with
  | zero => intro c h; exact h
  | succ k ih => intro c h; exact ih (crc32Step_lt h)

theorem crc32Byte_lt {c x : Nat} (hc : c < 2 ^ 32) (hx : x < 2 ^ 32) :
    crc32Byte c x < 2 ^ 32 :=
  crc32Rounds_lt 8 (Nat.xor_lt_two_pow hc hx)

theorem crc32UpdateCore_lt (d : List Nat) :
    ∀ {c : Nat}, (∀ x ∈ d, x < 2 ^ 32) → c < 2 ^ 32 → crc32UpdateCore c d < 2 ^ 32 := by
  induction d with
  | nil => intro c _ hc; exact hc
  | cons b bs ih =>
    intro c hd hc
    have hb : b < 2 ^ 32 := hd b (List.mem_cons_self b bs)
    have hbs : ∀ x ∈ bs, x < 2 ^ 32 := fun x hx => hd x (List.mem_cons_of_mem b hx)
    exact ih hbs (crc32Byte_lt hc hb)

theorem mask32_lt : mask32 < 2 ^ 32 := by norm_num [mask32]

theorem ChecksumIEEE_lt (d : List Nat) (hd : ∀ x ∈ d, x < 256) :
    ChecksumIEEE d < 2 ^ 32 := by
  have hd' : ∀ x ∈ d, x < 2 ^ 32 := fun x hx => lt_trans (hd x hx) (by norm_num)
  have h0 : (0 : Nat) ^^^ mask32 < 2 ^ 32 := by
    rw [Nat.zero_xor]; exact mask32_lt
  exact Nat.xor_lt_two_pow (crc32UpdateCore_lt d hd' h0) mask32_lt

/-! ## `putBytes` lemmas -/

theorem putBytes_fit (a rest bs : List Nat) {off : Nat} (h : a.length = off) :
    putBytes (a ++ rest) off bs = a ++ (bs ++ rest.drop bs.length) := by
  subst h
  rw [putBytes, List.take_left, ← List.drop_drop, List.drop_left, List.append_assoc]

theorem drop_replicate_add (k j : Nat) (x : Nat) :
    (List.replicate (k + j) x).drop k = List.replicate j x := by
  rw [← List.append_replicate_replicate, List.drop_left' (List.length_replicate _ _)]

theorem putBytes_fitL (a rest bs : List Nat) {off : Nat} (h : a.length = off) :
    putBytes (a ++ rest) off bs = (a ++ bs) ++ rest.drop bs.length := by
  rw [putBytes_fit a rest bs h, List.append_assoc]

theorem encode_stack (op sz id ds : Nat) (name : List Nat) :
    putBytes (putBytes (putBytes (putBytes (putBytes
        (List.replicate (20 + name.length) 0) 4 (leBytes 2 op))
        6 (leBytes 4 sz)) 10 (leBytes 8 id)) 18 (leBytes 2 ds)) 20 name
      = List.replicate 4 0 ++
          (leBytes 2 op ++ (leBytes 4 sz ++ (leBytes 8 id ++ (leBytes 2 ds ++ name)))) := by
  have s1 : putBytes (List.replicate (20 + name.length) 0) 4 (leBytes 2 op)
      = (List.replicate 4 0 ++ leBytes 2 op) ++ List.replicate (14 + name.length) 0 := by
    rw [show 20 + name.length = 4 + (16 + name.length) by omega,
      ← List.append_replicate_replicate,
      putBytes_fitL _ _ _ (List.length_replicate 4 0), length_leBytes,
      show 16 + name.length = 2 + (14 + name.length) by omega, drop_replicate_add]
  have s2 : putBytes ((List.replicate 4 0 ++ leBytes 2 op) ++ List.replicate (14 + name.length) 0)
        6 (leBytes 4 sz)
      = ((List.replicate 4 0 ++ leBytes 2 op) ++ leBytes 4 sz) ++ List.replicate (10 + name.length) 0 := by
    rw [putBytes_fitL _ _ _ (by simp [length_leBytes]), length_leBytes,
      show 14 + name.length = 4 + (10 + name.length) by omega, drop_replicate_add]
  have s3 : putBytes (((List.replicate 4 0 ++ leBytes 2 op) ++ leBytes 4 sz) ++ List.replicate (10 + name.length) 0)
        10 (leBytes 8 id)
      = (((List.replicate 4 0 ++ leBytes 2 op) ++ leBytes 4 sz) ++ leBytes 8 id) ++ List.replicate (2 + name.length) 0 := by
    rw [putBytes_fitL _ _ _ (by simp [length_leBytes]), length_leBytes,
      show 10 + name.length = 8 + (2 + name.length) by omega, drop_replicate_add]
  have s4 : putBytes ((((List.replicate 4 0 ++ leBytes 2 op) ++ leBytes 4 sz) ++ leBytes 8 id) ++ List.replicate (2 + name.length) 0)
        18 (leBytes 2 ds)
      = ((((List.replicate 4 0 ++ leBytes 2 op) ++ leBytes 4 sz) ++ leBytes 8 id) ++ leBytes 2 ds) ++ List.replicate name.length 0 := by
    rw [putBytes_fitL _ _ _ (by simp [length_leBytes]), length_leBytes, drop_replicate_add]
  have s5 : putBytes (((((List.replicate 4 0 ++ leBytes 2 op) ++ leBytes 4 sz) ++ leBytes 8 id) ++ leBytes 2 ds) ++ List.replicate name.length 0)
        20 name
      = ((((List.replicate 4 0 ++ leBytes 2 op) ++ leBytes 4 sz) ++ leBytes 8 id) ++ leBytes 2 ds) ++ name := by
    rw [putBytes_fitL _ _ _ (by simp [length_leBytes]),
      List.drop_eq_nil_of_le (by simp), List.append_nil]
  rw [s1, s2, s3, s4, s5]
  simp [List.append_assoc]

theorem encode_eq (b : Bucket) :
    b.Encode = (leBytes 4 (encCrc b) ++ encPayloadTail b,
      { b with Meta := { Crc := encCrc b, Op := b.Meta.Op, Size := encSize b } }) := by
  have hsz : b.GetEntrySize = 20 + b.Name.length := by
    simp [Bucket.GetEntrySize, Bucket.GetPayloadSize, BucketMetaSize,
      GetDiskSizeFromSingleObject_BucketMeta, IdSize, DsSize]
    omega
  have hstack := encode_stack b.Meta.Op (encSize b) b.Id b.Ds b.Name
  simp only [encSize] at hstack
  norm_num at hstack
  simp only [Bucket.Encode, hsz, BucketMetaSize, GetDiskSizeFromSingleObject_BucketMeta,
    IdSize, DsSize, encSize, encCrc, encPayloadTail]
  norm_num
  rw [hstack]
  rw [List.drop_left' (List.length_replicate 4 0)]
  simp only [putBytes, List.take_zero, List.nil_append, Nat.zero_add, length_leBytes]
  rw [List.drop_left' (List.length_replicate 4 0)]
  exact ⟨rfl, trivial⟩

theorem encode_fst (b : Bucket) :
    (b.Encode).1 = leBytes 4 (encCrc b) ++ encPayloadTail b := by
  rw [encode_eq]

theorem encode_snd (b : Bucket) :
    (b.Encode).2
      = { b with Meta := { Crc := encCrc b, Op := b.Meta.Op, Size := encSize b } } := by
  rw [encode_eq]

theorem length_encPayloadTail (b : Bucket) :
    (encPayloadTail b).length = 16 + b.Name.length := by
  simp [encPayloadTail, length_leBytes]
  omega

theorem encPayloadTail_lt (b : Bucket) (h : ∀ x ∈ b.Name, x < 256) :
    ∀ x ∈ encPayloadTail b, x < 256 := by
  intro x hx
  simp only [encPayloadTail, List.mem_append] at hx
  rcases hx with hx | hx | hx | hx | hx
  · exact leBytes_lt _ _ x hx
  · exact leBytes_lt _ _ x hx
  · exact leBytes_lt _ _ x hx
  · exact leBytes_lt _ _ x hx
  · exact h x hx

theorem encCrc_lt (b : Bucket) (h : ∀ x ∈ b.Name, x < 256) : encCrc b < 2 ^ 32 :=
  ChecksumIEEE_lt _ (encPayloadTail_lt b h)

theorem encode_fst_take4 (b : Bucket) :
    ((b.Encode).1).take 4 = leBytes 4 (encCrc b) := by
  rw [encode_fst, List.take_left' (length_leBytes 4 _)]

theorem encode_fst_drop4 (b : Bucket) :
    ((b.Encode).1).drop 4 = encPayloadTail b := by
  rw [encode_fst, List.drop_left' (length_leBytes 4 _)]

theorem encode_fst_split (b : Bucket) :
    (b.Encode).1 = encHeader b ++ encPayload b := by
  rw [encode_fst]
  simp [encHeader, encPayload, encPayloadTail, List.append_assoc]

theorem length_encHeader (b : Bucket) : (encHeader b).length = BucketMetaSize := by
  simp [encHeader, length_leBytes, BucketMetaSize, GetDiskSizeFromSingleObject_BucketMeta]

theorem encode_take_header (b : Bucket) :
    ((b.Encode).1).take BucketMetaSize = encHeader b := by
  rw [encode_fst_split, List.take_left' (length_encHeader b)]

theorem encode_drop_header (b : Bucket) :
    ((b.Encode).1).drop BucketMetaSize = encPayload b := by
  rw [encode_fst_split, List.drop_left' (length_encHeader b)]

theorem length_encPayload (b : Bucket) :
    (encPayload b).length = b.GetPayloadSize := by
  simp [encPayload, length_leBytes, Bucket.GetPayloadSize, IdSize, DsSize]
  omega

theorem length_encode_fst (b : Bucket) :
    ((b.Encode).1).length = b.GetEntrySize := by
  rw [encode_fst_split, List.length_append, length_encHeader, length_encPayload,
    Bucket.GetEntrySize]

theorem goSlice_zero (l : List Nat) (j : Nat) : goSlice l 0 j = l.take j := by
  simp [goSlice]

theorem LEUint64_take8 (l : List Nat) : LEUint64 (l.take 8) = LEUint64 l := by
  rw [LEUint64, LEUint64, List.take_take, Nat.min_self]

theorem LEUint16_take2 (l : List Nat) : LEUint16 (l.take 2) = LEUint16 l := by
  rw [LEUint16, LEUint16, List.take_take, Nat.min_self]

theorem LEUint64_leBytes_append (v : Nat) (rest : List Nat) :
    LEUint64 (leBytes 8 v ++ rest) = v % 2 ^ 64 := by
  rw [LEUint64, List.take_left' (length_leBytes 8 v), leNat_leBytes]
  norm_num

theorem LEUint16_leBytes_append (v : Nat) (rest : List Nat) :
    LEUint16 (leBytes 2 v ++ rest) = v % 2 ^ 16 := by
  rw [LEUint16, List.take_left' (length_leBytes 2 v), leNat_leBytes]
  norm_num

theorem bucketDecode_encPayload (c b : Bucket) :
    c.Decode (encPayload b)
      = some ({ c with Id := b.Id % 2 ^ 64, Ds := b.Ds % 2 ^ 16, Name := b.Name }, none) := by
  have hlen : IdSize + DsSize ≤ (encPayload b).length := by
    rw [length_encPayload]
    simp [Bucket.GetPayloadSize]
  rw [Bucket.Decode, if_pos hlen]
  simp only [IdSize, DsSize, goSlice, Nat.sub_zero, List.drop_zero]
  norm_num
  rw [LEUint64_take8, LEUint16_take2, encPayload, LEUint64_leBytes_append,
    List.drop_left' (length_leBytes 8 b.Id), LEUint16_leBytes_append,
    show (10 : Nat) = 8 + 2 from rfl, ← List.drop_drop,
    List.drop_left' (length_leBytes 8 b.Id), List.drop_left' (length_leBytes 2 b.Ds)]
  norm_num

/-! ## The claims -/

theorem exists_cons_of_le_length {l : List Nat} {k : Nat} (h : k + 1 ≤ l.length) :
    ∃ x t, l = x :: t ∧ k ≤ t.length := by
  cases l with
  | nil => simp at h
  | cons x t =>
    refine ⟨x, t, rfl, ?_⟩
    simp at h
    omega

theorem metaDecode_congr (m : BucketMeta) {bytes bytes' : List Nat}
    (h : bytes'.take BucketMetaSize = bytes.take BucketMetaSize) :
    m.Decode bytes' = m.Decode bytes := by
  have h10 : bytes'.take 10 = bytes.take 10 := h
  have hmin : min 10 bytes'.length = min 10 bytes.length := by
    have h1 := congrArg List.length h10
    simpa [List.length_take] using h1
  have hiff : (10 ≤ bytes'.length) ↔ (10 ≤ bytes.length) := by
    constructor
    · intro hb
      rw [min_eq_left hb] at hmin
      exact min_eq_left_iff.mp hmin.symm
    · intro hb
      rw [min_eq_left hb] at hmin
      exact min_eq_left_iff.mp hmin
  have etake : ∀ k : Nat, k ≤ 10 → bytes'.take k = bytes.take k := by
    intro k hk
    calc bytes'.take k = (bytes'.take 10).take k := by
          rw [List.take_take, Nat.min_eq_left hk]
      _ = (bytes.take 10).take k := by rw [h10]
      _ = bytes.take k := by rw [List.take_take, Nat.min_eq_left hk]
  have egos : ∀ i j : Nat, i ≤ j → j ≤ 10 → goSlice bytes' i j = goSlice bytes i j := by
    intro i j hij hj
    unfold goSlice
    rw [List.take_drop, List.take_drop, show i + (j - i) = j by omega, etake j hj]
  by_cases hc : (10 : Nat) ≤ bytes.length
  · have hc' : (10 : Nat) ≤ bytes'.length := hiff.mpr hc
    simp only [BucketMeta.Decode, show BucketMetaSize = 10 from rfl]
    rw [if_pos hc', if_pos hc, egos 0 4 (by norm_num) (by norm_num),
      egos 4 6 (by norm_num) (by norm_num), egos 6 10 (by norm_num) (by norm_num)]
  · have hc' : ¬ (10 : Nat) ≤ bytes'.length := fun hb => hc (hiff.mp hb)
    simp only [BucketMeta.Decode, show BucketMetaSize = 10 from rfl]
    rw [if_neg hc', if_neg hc]

/-- C1: for every Bucket with in-range `Id`, `Ds` and payload size (a valid
bucket), encoding and then decoding the payload portion of the result — the
bytes from offset `BucketMetaSize` to the end, which are exactly `Meta.Size`
bytes — with `Bucket.Decode` reproduces `Id`, `Ds` and `Name` exactly, on any
receiver. -/
theorem claim_C1 (b c : Bucket) (hId : b.Id < 2 ^ 64) (hDs : b.Ds < 2 ^ 16)
    (hSz : b.GetPayloadSize < 2 ^ 32) :
    c.Decode (((b.Encode).1).drop BucketMetaSize)
        = some ({ c with Id := b.Id, Ds := b.Ds, Name := b.Name }, none) ∧
    (((b.Encode).1).drop BucketMetaSize).length = ((b.Encode).2).Meta.Size := by
  constructor
  · rw [encode_drop_header, bucketDecode_encPayload, Nat.mod_eq_of_lt hId,
      Nat.mod_eq_of_lt hDs]
  · have hSz' : b.GetPayloadSize < 4294967296 := by
      have h' := hSz
      norm_num at h'
      exact h'
    rw [encode_drop_header, length_encPayload]
    simp [encode_snd, encSize]
    omega

theorem claim_C1_witness :
    Bucket.Decode ⟨⟨0, 0, 0⟩, 0, 0, []⟩
        (((Bucket.Encode ⟨⟨0, 1, 0⟩, 42, 1, [111, 114, 100, 101, 114, 115]⟩).1).drop BucketMetaSize)
        = some (⟨⟨0, 0, 0⟩, 42, 1, [111, 114, 100, 101, 114, 115]⟩, none) ∧
    (((Bucket.Encode ⟨⟨0, 1, 0⟩, 42, 1, [111, 114, 100, 101, 114, 115]⟩).1).drop BucketMetaSize).length
        = ((Bucket.Encode ⟨⟨0, 1, 0⟩, 42, 1, [111, 114, 100, 101, 114, 115]⟩).2).Meta.Size :=
  claim_C1 ⟨⟨0, 1, 0⟩, 42, 1, [111, 114, 100, 101, 114, 115]⟩ ⟨⟨0, 0, 0⟩, 0, 0, []⟩
    (by decide) (by decide) (by decide)

/-- C2: the buffer returned by `Encode` carries at offset 0, little-endian,
the CRC-32/IEEE checksum of the buffer's bytes from offset 4 to the end, and
after `Encode` the receiver's `Meta.Crc` equals that same checksum.  The
hypothesis says the name consists of byte values, as a Go string does. -/
theorem claim_C2 (b : Bucket) (hName : ∀ x ∈ b.Name, x < 256) :
    leNat (((b.Encode).1).take 4) = ChecksumIEEE (((b.Encode).1).drop 4) ∧
    ((b.Encode).2).Meta.Crc = ChecksumIEEE (((b.Encode).1).drop 4) := by
  have hc : encCrc b < 2 ^ 32 := encCrc_lt b hName
  constructor
  · rw [encode_fst_take4, encode_fst_drop4, leNat_leBytes,
      show (256 ^ 4 : Nat) = 2 ^ 32 by norm_num, Nat.mod_eq_of_lt hc, encCrc]
  · rw [encode_snd, encode_fst_drop4]
    simp [encCrc]

theorem claim_C2_witness :
    leNat (((Bucket.Encode ⟨⟨0, 1, 0⟩, 42, 1, [111, 114, 100, 101, 114, 115]⟩).1).take 4)
        = ChecksumIEEE (((Bucket.Encode ⟨⟨0, 1, 0⟩, 42, 1, [111, 114, 100, 101, 114, 115]⟩).1).drop 4) ∧
    ((Bucket.Encode ⟨⟨0, 1, 0⟩, 42, 1, [111, 114, 100, 101, 114, 115]⟩).2).Meta.Crc
        = ChecksumIEEE (((Bucket.Encode ⟨⟨0, 1, 0⟩, 42, 1, [111, 114, 100, 101, 114, 115]⟩).1).drop 4) :=
  claim_C2 ⟨⟨0, 1, 0⟩, 42, 1, [111, 114, 100, 101, 114, 115]⟩ (by decide)

/-- C3: `GetCRC headerBuf dataBuf` equals the CRC-32/IEEE checksum of the
concatenation `headerBuf[4:] ++ dataBuf` whenever `len(headerBuf) ≥ 4`; in
particular on the header/payload halves of an encoded buffer it returns
exactly the value `Encode` stored in `Meta.Crc` and embedded at offset 0. -/
theorem claim_C3 (b₀ b : Bucket) (headerBuf dataBuf : List Nat)
    (hlen : 4 ≤ headerBuf.length) :
    b₀.GetCRC headerBuf dataBuf = some (ChecksumIEEE (headerBuf.drop 4 ++ dataBuf)) ∧
    b₀.GetCRC (((b.Encode).1).take BucketMetaSize) (((b.Encode).1).drop BucketMetaSize)
        = some (((b.Encode).2).Meta.Crc) ∧
    ((b.Encode).1).take 4 = leBytes 4 (((b.Encode).2).Meta.Crc) := by
  refine ⟨?_, ?_, ?_⟩
  · rw [Bucket.GetCRC, if_pos hlen, ChecksumIEEE_append]
  · rw [encode_take_header, encode_drop_header, encode_snd]
    have h4 : (4 : Nat) ≤ (encHeader b).length := by
      rw [length_encHeader]
      norm_num [BucketMetaSize, GetDiskSizeFromSingleObject_BucketMeta]
    rw [Bucket.GetCRC, if_pos h4, ChecksumIEEE_append]
    have hdrop : (encHeader b).drop 4 = leBytes 2 b.Meta.Op ++ leBytes 4 (encSize b) := by
      rw [encHeader, List.drop_left' (length_leBytes 4 _)]
    rw [hdrop]
    simp [encCrc, encPayloadTail, encPayload, List.append_assoc]
  · rw [encode_fst_take4, encode_snd]

theorem claim_C3_witness :
    Bucket.GetCRC ⟨⟨0, 1, 0⟩, 5, 2, [97]⟩ [1, 2, 3, 4] [7]
        = some (ChecksumIEEE (([1, 2, 3, 4] : List Nat).drop 4 ++ [7])) ∧
    Bucket.GetCRC ⟨⟨0, 1, 0⟩, 5, 2, [97]⟩
        (((Bucket.Encode ⟨⟨0, 1, 0⟩, 5, 2, [97]⟩).1).take BucketMetaSize)
        (((Bucket.Encode ⟨⟨0, 1, 0⟩, 5, 2, [97]⟩).1).drop BucketMetaSize)
        = some (((Bucket.Encode ⟨⟨0, 1, 0⟩, 5, 2, [97]⟩).2).Meta.Crc) ∧
    ((Bucket.Encode ⟨⟨0, 1, 0⟩, 5, 2, [97]⟩).1).take 4
        = leBytes 4 (((Bucket.Encode ⟨⟨0, 1, 0⟩, 5, 2, [97]⟩).2).Meta.Crc) :=
  claim_C3 ⟨⟨0, 1, 0⟩, 5, 2, [97]⟩ ⟨⟨0, 1, 0⟩, 5, 2, [97]⟩ [1, 2, 3, 4] [7] (by decide)

/-- C4: for inputs of length at least `BucketMetaSize`, `BucketMeta.Decode`
assigns `Crc` from the little-endian 32-bit integer at `[0:4)`, `Op` from the
little-endian 16-bit integer at `[4:6)` and `Size` from the little-endian
32-bit integer at `[6:10)`, performs no CRC validation (it succeeds on every
byte content), and reads no bytes beyond offset 10 (its result only depends
on the first 10 bytes). -/
theorem claim_C4 (m : BucketMeta) (bytes : List Nat)
    (hlen : BucketMetaSize ≤ bytes.length) :
    m.Decode bytes = some
      { Crc := bytes.getD 0 0 + 2 ^ 8 * bytes.getD 1 0 + 2 ^ 16 * bytes.getD 2 0
                 + 2 ^ 24 * bytes.getD 3 0
      , Op := bytes.getD 4 0 + 2 ^ 8 * bytes.getD 5 0
      , Size := bytes.getD 6 0 + 2 ^ 8 * bytes.getD 7 0 + 2 ^ 16 * bytes.getD 8 0
                  + 2 ^ 24 * bytes.getD 9 0 } ∧
    ∀ bytes' : List Nat, bytes'.take BucketMetaSize = bytes.take BucketMetaSize →
      m.Decode bytes' = m.Decode bytes := by
  constructor
  · have h10 : (10 : Nat) ≤ bytes.length := hlen
    obtain ⟨b0, t0, rfl, h1⟩ := exists_cons_of_le_length h10
    obtain ⟨b1, t1, rfl, h2⟩ := exists_cons_of_le_length h1
    obtain ⟨b2, t2, rfl, h3⟩ := exists_cons_of_le_length h2
    obtain ⟨b3, t3, rfl, h4⟩ := exists_cons_of_le_length h3
    obtain ⟨b4, t4, rfl, h5⟩ := exists_cons_of_le_length h4
    obtain ⟨b5, t5, rfl, h6⟩ := exists_cons_of_le_length h5
    obtain ⟨b6, t6, rfl, h7⟩ := exists_cons_of_le_length h6
    obtain ⟨b7, t7, rfl, h8⟩ := exists_cons_of_le_length h7
    obtain ⟨b8, t8, rfl, h9⟩ := exists_cons_of_le_length h8
    obtain ⟨b9, t9, rfl, _⟩ := exists_cons_of_le_length h9
    rw [BucketMeta.Decode, if_pos hlen]
    simp [goSlice, LEUint32, LEUint16, leNat]
    omega
  · intro bytes' h'
    exact metaDecode_congr m h'

theorem claim_C4_witness :
    BucketMeta.Decode ⟨0, 0, 0⟩ [1, 0, 0, 0, 2, 0, 16, 0, 0, 0, 99] = some
      { Crc := ([1, 0, 0, 0, 2, 0, 16, 0, 0, 0, 99] : List Nat).getD 0 0
                 + 2 ^ 8 * ([1, 0, 0, 0, 2, 0, 16, 0, 0, 0, 99] : List Nat).getD 1 0
                 + 2 ^ 16 * ([1, 0, 0, 0, 2, 0, 16, 0, 0, 0, 99] : List Nat).getD 2 0
                 + 2 ^ 24 * ([1, 0, 0, 0, 2, 0, 16, 0, 0, 0, 99] : List Nat).getD 3 0
      , Op := ([1, 0, 0, 0, 2, 0, 16, 0, 0, 0, 99] : List Nat).getD 4 0
                 + 2 ^ 8 * ([1, 0, 0, 0, 2, 0, 16, 0, 0, 0, 99] : List Nat).getD 5 0
      , Size := ([1, 0, 0, 0, 2, 0, 16, 0, 0, 0, 99] : List Nat).getD 6 0
                 + 2 ^ 8 * ([1, 0, 0, 0, 2, 0, 16, 0, 0, 0, 99] : List Nat).getD 7 0
                 + 2 ^ 16 * ([1, 0, 0, 0, 2, 0, 16, 0, 0, 0, 99] : List Nat).getD 8 0
                 + 2 ^ 24 * ([1, 0, 0, 0, 2, 0, 16, 0, 0, 0, 99] : List Nat).getD 9 0 } ∧
    ∀ bytes' : List Nat,
      bytes'.take BucketMetaSize = ([1, 0, 0, 0, 2, 0, 16, 0, 0, 0, 99] : List Nat).take BucketMetaSize →
      BucketMeta.Decode ⟨0, 0, 0⟩ bytes'
        = BucketMeta.Decode ⟨0, 0, 0⟩ [1, 0, 0, 0, 2, 0, 16, 0, 0, 0, 99] :=
  claim_C4 ⟨0, 0, 0⟩ [1, 0, 0, 0, 2, 0, 16, 0, 0, 0, 99] (by decide)

/-- C5: `GetEntrySize = BucketMetaSize + GetPayloadSize`,
`GetPayloadSize = 10 + len(Name)`, and the buffer returned by `Encode` has
length exactly `GetEntrySize`. -/
theorem claim_C5 (b : Bucket) :
    b.GetEntrySize = BucketMetaSize + b.GetPayloadSize ∧
    b.GetPayloadSize = 10 + b.Name.length ∧
    ((b.Encode).1).length = b.GetEntrySize :=
  ⟨rfl, by simp [Bucket.GetPayloadSize, IdSize, DsSize], length_encode_fst b⟩

/-- C6 counterexample: for a Bucket whose name has length `2 ^ 32`, `Encode`
sets `Meta.Size` to the `uint32`-truncated payload size, which differs from
`10 + len(Name)`. -/
theorem claim_C6_cex :
    ¬ (((Bucket.Encode ⟨⟨0, 1, 0⟩, 0, 0, List.replicate (2 ^ 32) 0⟩).2).Meta.Size
        = 10 + (List.replicate (2 ^ 32) (0 : Nat)).length) := by
  intro hEq
  have h3 : (List.replicate (2 ^ 32) (0 : Nat)).length = 2 ^ 32 :=
    List.length_replicate _ _
  have h1 : ((Bucket.Encode ⟨⟨0, 1, 0⟩, 0, 0, List.replicate (2 ^ 32) 0⟩).2).Meta.Size
      = encSize ⟨⟨0, 1, 0⟩, 0, 0, List.replicate (2 ^ 32) 0⟩ := by
    rw [encode_snd]
  have hgps : (⟨⟨0, 1, 0⟩, 0, 0, List.replicate (2 ^ 32) 0⟩ : Bucket).GetPayloadSize
      = 8 + 2 + 2 ^ 32 := by
    rw [Bucket.GetPayloadSize,
      show (⟨⟨0, 1, 0⟩, 0, 0, List.replicate (2 ^ 32) 0⟩ : Bucket).Name
          = List.replicate (2 ^ 32) 0 from rfl, h3]
    norm_num [IdSize, DsSize]
  have hSize : encSize ⟨⟨0, 1, 0⟩, 0, 0, List.replicate (2 ^ 32) 0⟩
      = (8 + 2 + 2 ^ 32) % 2 ^ 32 := by
    rw [encSize, hgps]
  rw [h3, h1, hSize] at hEq
  norm_num at hEq

/-- C6 (amended): `Encode` mutates exactly `Meta.Size` — set to the payload
size `10 + len(Name)` reduced modulo `2 ^ 32` by Go's `uint32` conversion,
hence equal to `10 + len(Name)` whenever that fits in 32 bits — and
`Meta.Crc` — set to the freshly computed checksum of bytes `[4:]` — while
`Meta.Op`, `Id`, `Ds` and `Name` are left unchanged. -/
theorem claim_C6 (b : Bucket) :
    ((b.Encode).2).Meta.Size = (10 + b.Name.length) % 2 ^ 32 ∧
    ((b.Encode).2).Meta.Crc = ChecksumIEEE (((b.Encode).1).drop 4) ∧
    ((b.Encode).2).Meta.Op = b.Meta.Op ∧
    ((b.Encode).2).Id = b.Id ∧
    ((b.Encode).2).Ds = b.Ds ∧
    ((b.Encode).2).Name = b.Name := by
  rw [encode_snd, encode_fst_drop4]
  refine ⟨?_, rfl, rfl, rfl, rfl, rfl⟩
  simp [encSize, Bucket.GetPayloadSize, IdSize, DsSize]

/-- C7 counterexample: the header width is 10 bytes, but the claimed
field-width decomposition `4 + 2 + 6` does not equal it (the true widths are
`Crc` 4, `Op` 2, `Size` 4). -/
theorem claim_C7_cex : BucketMetaSize = 10 ∧ (4 + 2 + 6 : Nat) ≠ BucketMetaSize := by
  decide

/-- C7 (amended): `BucketMetaSize`, computed once at start-up from a
zero-valued `BucketMeta`, equals the exact byte width of the header's three
fields, `4 + 2 + 4 = 10` bytes, so the fixed header occupies exactly the
first 10 bytes of every encoded record and the payload begins at offset
10. -/
theorem claim_C7 :
    BucketMetaSize = GetDiskSizeFromSingleObject_BucketMeta ∧
    GetDiskSizeFromSingleObject_BucketMeta = 4 + 2 + 4 ∧
    BucketMetaSize = 10 ∧
    ∀ b : Bucket, ((b.Encode).1).take BucketMetaSize = encHeader b ∧
      ((b.Encode).1).drop BucketMetaSize = encPayload b ∧
      (encHeader b).length = BucketMetaSize :=
  ⟨rfl, rfl, rfl, fun b => ⟨encode_take_header b, encode_drop_header b, length_encHeader b⟩⟩

/-- C8: the Bucket with `Id = 42`, `Ds = 1`, `Name = "orders"` and
`Meta.Op = 1` encodes to exactly 26 bytes; decoding the first 10 bytes with
`BucketMeta.Decode` yields `Op = 1` and `Size = 16`; decoding the remaining
16 bytes with `Bucket.Decode` yields `Id = 42`, `Ds = 1`,
`Name = "orders"`. -/
theorem claim_C8 :
    ((Bucket.Encode ⟨⟨0, 1, 0⟩, 42, 1, [111, 114, 100, 101, 114, 115]⟩).1).length = 26 ∧
    Option.map (fun m => (m.Op, m.Size))
        (BucketMeta.Decode ⟨0, 0, 0⟩
          (((Bucket.Encode ⟨⟨0, 1, 0⟩, 42, 1, [111, 114, 100, 101, 114, 115]⟩).1).take 10))
      = some (1, 16) ∧
    Bucket.Decode ⟨⟨0, 0, 0⟩, 0, 0, []⟩
        (((Bucket.Encode ⟨⟨0, 1, 0⟩, 42, 1, [111, 114, 100, 101, 114, 115]⟩).1).drop 10)
      = some (⟨⟨0, 0, 0⟩, 42, 1, [111, 114, 100, 101, 114, 115]⟩, none) := by
  decide

/-- C9: `BucketMeta.Decode` completes exactly on inputs of length at least
`BucketMetaSize` and hits the out-of-bounds panic (`none`) on every shorter
input; `Bucket.Decode` completes exactly on payloads of length at least 10
and panics on every shorter payload. -/
theorem claim_C9 (m : BucketMeta) (c : Bucket) (bytes payload : List Nat) :
    ((m.Decode bytes).isSome ↔ BucketMetaSize ≤ bytes.length) ∧
    ((c.Decode payload).isSome ↔ 10 ≤ payload.length) := by
  constructor
  · by_cases h : BucketMetaSize ≤ bytes.length
    · simp [BucketMeta.Decode, h]
    · simp [BucketMeta.Decode, h]
  · by_cases h : (10 : Nat) ≤ payload.length
    · simp [Bucket.Decode, IdSize, DsSize, h]
    · simp [Bucket.Decode, IdSize, DsSize, h]

/-- C10: on every payload of length at least 10, `Bucket.Decode` succeeds and
returns a `nil` error — never `ErrBucketCrcInvalid` or any other error — and
leaves the receiver's `Meta` unchanged (the input bytes are immutable in the
model); no checksum verification happens inside `Decode`. -/
theorem claim_C10 (c : Bucket) (bytes : List Nat) (hlen : 10 ≤ bytes.length) :
    ∃ c' : Bucket, c.Decode bytes = some (c', none) ∧ c'.Meta = c.Meta := by
  have h' : IdSize + DsSize ≤ bytes.length := hlen
  refine ⟨{ c with
              Id := LEUint64 (goSlice bytes 0 IdSize)
            , Ds := LEUint16 (goSlice bytes IdSize (IdSize + DsSize))
            , Name := bytes.drop (IdSize + DsSize) }, ?_, rfl⟩
  rw [Bucket.Decode, if_pos h']

theorem claim_C10_witness :
    ∃ c' : Bucket,
      Bucket.Decode ⟨⟨7, 8, 9⟩, 0, 0, []⟩ [0, 0, 0, 0, 0, 0, 0, 0, 0, 0] = some (c', none) ∧
      c'.Meta = (⟨⟨7, 8, 9⟩, 0, 0, []⟩ : Bucket).Meta :=
  claim_C10 ⟨⟨7, 8, 9⟩, 0, 0, []⟩ [0, 0, 0, 0, 0, 0, 0, 0, 0, 0] (by decide)

end NutsDB
